import Mathlib

/-!
Shallow embedding of the ChatwithDocx backend retrieval engine
(`server.js` and its sibling variants): cosine-similarity ranking,
the chat top-K selection, the embedding gateway with cache and
rate-limit backoff, and the batched upload/ingestion pipeline.

Modelling conventions:
* JS number values carried by vectors are idealized as rationals `ℚ`
  (IEEE doubles are dyadic rationals); results of `Math.sqrt` and
  division live in `ℝ`.
* A JS `NaN` outcome is modelled as `none` in `Option ℝ`: the code
  produces `NaN` exactly when it divides `0 / 0` (zero magnitude) or
  reads `vecB[i]` out of range (`undefined`, which poisons the sums).
-/

namespace ChatDocx

/-- An embedding vector: an ordered sequence of JS numbers. -/
abbrev Vec := List ℚ

/-- The `normA`/`normB` accumulator of `cosineSimilarity`: the sum of
`v[i] * v[i]` over the whole list `v`. -/
def sumSquares (v : Vec) : ℚ := (v.map (fun x => x * x)).sum

/-- The `dotProduct` accumulator of `cosineSimilarity`: the sum of
`a[i] * b[i]` over the common prefix of `a` and `b` (the loop of the
source runs over the indices of `a`; it only produces a numeric sum
when `a` is at most as long as `b`, the case kept by the guard in
`cosineSimilarity` below). -/
def dotProduct (a b : Vec) : ℚ := (List.zipWith (· * ·) a b).sum

/-- `cosineSimilarity` from `server.js` lines 146-156: a loop over the
indices of `vecA` accumulating `dotProduct`, `normA`, `normB`, then
`dotProduct / (Math.sqrt(normA) * Math.sqrt(normB))`.

JS semantics captured here:
* if `vecA` is longer than `vecB`, the reads `vecB[i]` past the end
  yield `undefined`, every sum becomes `NaN`, and the result is `NaN`
  (`none`); no exception is thrown and no mismatch is signalled;
* `normB` only sums the first `vecA.length` entries of `vecB`;
* when `normA` or the truncated `normB` is zero the dot product over
  the same index range is also zero, so the division is `0 / 0 = NaN`
  (`none`);
* otherwise the result is the real-valued quotient. -/
noncomputable def cosineSimilarity (a b : Vec) : Option ℝ :=
  if b.length < a.length then none
  else if sumSquares a = 0 ∨ sumSquares (b.take a.length) = 0 then none
  else some ((dotProduct a b : ℝ) /
    (Real.sqrt (sumSquares a : ℝ) * Real.sqrt (sumSquares (b.take a.length) : ℝ)))

/-- The Similarity Ranker score formula as the spec words it:
`dot(a,b) / (‖a‖ · ‖b‖)` where `‖v‖ = sqrt (sum of squares of v)`.
Stated for comparison with the source-derived `cosineSimilarity`. -/
noncomputable def specCosine (a b : Vec) : ℝ :=
  (dotProduct a b : ℝ) /
    (Real.sqrt (sumSquares a : ℝ) * Real.sqrt (sumSquares b : ℝ))

theorem sumSquares_nonneg (v : Vec) : 0 ≤ sumSquares v := by
  apply List.sum_nonneg
  intro x hx
  simp only [List.mem_map] at hx
  obtain ⟨y, -, rfl⟩ := hx
  exact mul_self_nonneg y

theorem sumSquares_cons (x : ℚ) (v : Vec) :
    sumSquares (x :: v) = x * x + sumSquares v := by
  simp [sumSquares]

theorem dotProduct_cons (x y : ℚ) (a b : Vec) :
    dotProduct (x :: a) (y :: b) = x * y + dotProduct a b := by
  simp [dotProduct]

theorem two_mul_le_aux (x y d A B : ℚ) (hA : 0 ≤ A) (hB : 0 ≤ B)
    (hd : d ^ 2 ≤ A * B) : 2 * (x * y * d) ≤ x ^ 2 * B + y ^ 2 * A := by
  rcases eq_or_lt_of_le hA with h | h
  · have hd0 : d = 0 := by nlinarith [sq_nonneg d]
    subst hd0
    nlinarith [mul_nonneg (sq_nonneg x) hB, mul_nonneg (sq_nonneg y) hA]
  · have key : 0 ≤ A * (x ^ 2 * B + y ^ 2 * A - 2 * (x * y * d)) := by
      nlinarith [sq_nonneg (x * d - y * A),
        mul_le_mul_of_nonneg_left hd (sq_nonneg x)]
    nlinarith [key, h]

/-- Cauchy-Schwarz for the list dot product, in squared form over `ℚ`. -/
theorem dotProduct_sq_le (a b : Vec) :
    dotProduct a b ^ 2 ≤ sumSquares a * sumSquares b := by
  induction a generalizing b with
  | nil => simp [dotProduct, sumSquares]
  | cons x a ih =>
    cases b with
    | nil =>
      have := sumSquares_nonneg (x :: a)
      simp [dotProduct, sumSquares]
    | cons y b =>
      have hab := ih b
      have hA := sumSquares_nonneg a
      have hB := sumSquares_nonneg b
      have haux := two_mul_le_aux x y (dotProduct a b) (sumSquares a)
        (sumSquares b) hA hB hab
      rw [dotProduct_cons, sumSquares_cons, sumSquares_cons]
      nlinarith [haux, hab]

theorem zipWith_take_right (f : ℚ → ℚ → ℚ) (a b : Vec) :
    List.zipWith f a (b.take a.length) = List.zipWith f a b := by
  induction a generalizing b with
  | nil => simp
  | cons x a ih =>
    cases b with
    | nil => simp
    | cons y b => simpa using ih b

theorem dotProduct_take (a b : Vec) :
    dotProduct a (b.take a.length) = dotProduct a b := by
  unfold dotProduct
  rw [zipWith_take_right]

theorem specCosine_range (a b : Vec) (ha : sumSquares a ≠ 0)
    (hb : sumSquares b ≠ 0) : -1 ≤ specCosine a b ∧ specCosine a b ≤ 1 := by
  have hA0 : (0 : ℝ) ≤ (sumSquares a : ℚ) := by
    exact_mod_cast sumSquares_nonneg a
  have hB0 : (0 : ℝ) ≤ (sumSquares b : ℚ) := by
    exact_mod_cast sumSquares_nonneg b
  have hApos : (0 : ℝ) < (sumSquares a : ℚ) := by
    have : (0 : ℚ) < sumSquares a := lt_of_le_of_ne (sumSquares_nonneg a) (Ne.symm ha)
    exact_mod_cast this
  have hBpos : (0 : ℝ) < (sumSquares b : ℚ) := by
    have : (0 : ℚ) < sumSquares b := lt_of_le_of_ne (sumSquares_nonneg b) (Ne.symm hb)
    exact_mod_cast this
  have hD : 0 < Real.sqrt (sumSquares a : ℚ) * Real.sqrt (sumSquares b : ℚ) :=
    mul_pos (Real.sqrt_pos.mpr hApos) (Real.sqrt_pos.mpr hBpos)
  have hsq : ((dotProduct a b : ℚ) : ℝ) ^ 2 ≤
      ((sumSquares a : ℚ) : ℝ) * ((sumSquares b : ℚ) : ℝ) := by
    exact_mod_cast dotProduct_sq_le a b
  have habs : |((dotProduct a b : ℚ) : ℝ)| ≤
      Real.sqrt (sumSquares a : ℚ) * Real.sqrt (sumSquares b : ℚ) := by
    rw [← Real.sqrt_sq_eq_abs, ← Real.sqrt_mul hA0]
    exact Real.sqrt_le_sqrt hsq
  have hq : |specCosine a b| ≤ 1 := by
    rw [specCosine, abs_div, abs_of_pos hD]
    exact (div_le_one hD).mpr habs
  exact ⟨neg_le_of_abs_le hq, le_of_abs_le hq⟩

/-- C1 (amended): on vectors of equal length whose magnitudes are both
nonzero, the Similarity Ranker's score is `some` of the spec formula
`dot(a,b) / (‖a‖ · ‖b‖)` and lies in `[-1, 1]`. (The zero-magnitude
sentinel claimed by the spec does not exist: see the counterexample.) -/
theorem cosineSimilarity_spec (a b : Vec) (hlen : a.length = b.length)
    (ha : sumSquares a ≠ 0) (hb : sumSquares b ≠ 0) :
    cosineSimilarity a b = some (specCosine a b) ∧
      -1 ≤ specCosine a b ∧ specCosine a b ≤ 1 := by
  refine ⟨?_, specCosine_range a b ha hb⟩
  rw [cosineSimilarity, specCosine, hlen, List.take_length]
  simp [ha, hb]

/-- C1 witness: concrete instance of `cosineSimilarity_spec` at `[1]`, `[1]`. -/
theorem cosineSimilarity_spec_witness :
    cosineSimilarity [(1 : ℚ)] [(1 : ℚ)] = some (specCosine [(1 : ℚ)] [(1 : ℚ)]) ∧
      -1 ≤ specCosine [(1 : ℚ)] [(1 : ℚ)] ∧ specCosine [(1 : ℚ)] [(1 : ℚ)] ≤ 1 :=
  cosineSimilarity_spec [(1 : ℚ)] [(1 : ℚ)] rfl
    (by simp [sumSquares]) (by simp [sumSquares])

/-- C1 counterexample: on the zero vector the code computes `0 / 0`,
which is JS `NaN` (`none`), not the documented sentinel `0`. -/
theorem cosineSimilarity_zero_not_sentinel :
    cosineSimilarity [(0 : ℚ)] [(0 : ℚ)] = none ∧
      cosineSimilarity [(0 : ℚ)] [(0 : ℚ)] ≠ some (0 : ℝ) := by
  constructor <;> simp [cosineSimilarity, sumSquares]

/-- C10: `cosineSimilarity` is total on unequal-length vectors: when the
first vector is at most as long as the second it returns the partial-sum
score computed over only the first vector's indices (equivalently, over
the second vector truncated to that length); when the first vector is
strictly longer, the out-of-range reads of `vecB` make the result `NaN`
(`none`). No length-mismatch error is ever signalled. -/
theorem cosineSimilarity_mismatch (a b : Vec) :
    (a.length ≤ b.length →
      cosineSimilarity a b = cosineSimilarity a (b.take a.length)) ∧
    (b.length < a.length → cosineSimilarity a b = none) := by
  constructor
  · intro hle
    have hlen : (b.take a.length).length = a.length := by
      rw [List.length_take]
      exact Nat.min_eq_left hle
    rw [cosineSimilarity, cosineSimilarity, hlen, dotProduct_take]
    simp [Nat.not_lt.mpr hle, List.take_take]
  · intro hlt
    rw [cosineSimilarity]
    simp [hlt]

/-- C10 witness: concrete instances of both branches of
`cosineSimilarity_mismatch`. -/
theorem cosineSimilarity_mismatch_witness :
    (cosineSimilarity [(1 : ℚ)] [(1 : ℚ), 2] =
      cosineSimilarity [(1 : ℚ)] ([(1 : ℚ), 2].take 1)) ∧
    cosineSimilarity [(1 : ℚ), 2] [(1 : ℚ)] = none :=
  ⟨(cosineSimilarity_mismatch [(1 : ℚ)] [(1 : ℚ), 2]).1 (by decide),
    (cosineSimilarity_mismatch [(1 : ℚ), 2] [(1 : ℚ)]).2 (by decide)⟩

/-- A persisted record of the Mongoose `Chunk` model: the originating
file's name, the chunk text, and the embedding vector. (The `createdAt`
timestamp default plays no role in any ranking or ingestion logic.) -/
structure ChunkRec where
  fileName : String
  chunk : String
  embedding : Vec
deriving DecidableEq

/-- A scored record as built by the map step of the `/chat` handler:
`{ chunk, similarityScore }`, the score being possibly `NaN` (`none`). -/
structure Scored where
  record : ChunkRec
  similarityScore : Option ℝ

/-- The `/chat` sort comparator `(a, b) => b.similarityScore -
a.similarityScore`, rendered as the Boolean relation "`x` may be placed
before `y`": true when the comparator value is `≤ 0`, i.e.
`y.score ≤ x.score`. When either score is `NaN` the comparator returns
`NaN`, which ECMAScript `SortCompare` coerces to `+0` (treated as
equal), so either order is allowed (`true`). -/
noncomputable def scoreLE (x y : Scored) : Bool :=
  match x.similarityScore, y.similarityScore with
  | some sx, some sy => decide (sy ≤ sx)
  | _, _ => true

/-- Step 3 map of `/chat`: attach `cosineSimilarity(queryVector,
chunk.embedding)` to every stored record, in store order. -/
noncomputable def scoredList (q : Vec) (recs : List ChunkRec) : List Scored :=
  recs.map (fun c => ⟨c, cosineSimilarity q c.embedding⟩)

/-- Step 3 sort of `/chat` before truncation: JS `Array.prototype.sort`
is required to be stable, so it is modelled by the stable `mergeSort`
with the comparator relation `scoreLE`. -/
noncomputable def sortedScored (q : Vec) (recs : List ChunkRec) : List Scored :=
  (scoredList q recs).mergeSort scoreLE

/-- The `/chat` top-K selection `.map(score).sort(desc).slice(0, k)`;
the handler instantiates `k = 5`. -/
noncomputable def topK (q : Vec) (recs : List ChunkRec) (k : Nat) : List Scored :=
  (sortedScored q recs).take k

/-- `similarChunks` of the `/chat` handler: `topK` with `k = 5`. -/
noncomputable def similarChunks (q : Vec) (recs : List ChunkRec) : List Scored :=
  topK q recs 5

/-- Step 4 of `/chat`: assemble the context block, one
`fileName: chunk` line per scored record, joined by newlines. -/
def mkContext (scored : List Scored) : String :=
  String.intercalate "\n"
    (scored.map (fun item => item.record.fileName ++ ": " ++ item.record.chunk))

/-- The caller-visible outcome of the `/chat` handler: the explicit
HTTP 404 `{ error: "No relevant information found." }` signal, or a 200
answer generated from the assembled context. -/
inductive ChatResult
  | noRelevantResults
  | answer (context : String)
deriving DecidableEq

/-- The `/chat` handler after the query has been embedded: rank all
stored records, and if `similarChunks` is empty answer with the explicit
404 signal; otherwise build the context and answer. -/
noncomputable def chatHandler (q : Vec) (recs : List ChunkRec) : ChatResult :=
  let sc := similarChunks q recs
  if sc.length = 0 then ChatResult.noRelevantResults
  else ChatResult.answer (mkContext sc)

/-- A scored record whose score is definite (non-NaN); used to transfer
the global `mergeSort` sortedness/stability lemmas to score lists that
contain no `NaN`. -/
structure ScoredR where
  record : ChunkRec
  score : ℝ

/-- The comparator relation restricted to definite scores. -/
noncomputable def scoreLER (x y : ScoredR) : Bool := decide (y.score ≤ x.score)

/-- Reinterpret a definitely-scored record as a `Scored`. -/
def toScored (x : ScoredR) : Scored := ⟨x.record, some x.score⟩

/-- Non-increasing-score order on scored records, for stating
sortedness: whenever both scores are definite, the later score is at
most the earlier one. -/
def scoreGE (x y : Scored) : Prop :=
  ∀ sx sy, x.similarityScore = some sx → y.similarityScore = some sy → sy ≤ sx

theorem scoreLER_trans : ∀ a b c : ScoredR,
    scoreLER a b → scoreLER b c → scoreLER a c := by
  intro a b c hab hbc
  simp only [scoreLER, decide_eq_true_eq] at *
  exact le_trans hbc hab

theorem scoreLER_total : ∀ a b : ScoredR, scoreLER a b || scoreLER b a := by
  intro a b
  simp only [scoreLER, Bool.or_eq_true, decide_eq_true_eq]
  exact le_total b.score a.score

theorem scoreLER_eq_scoreLE (a b : ScoredR) :
    scoreLER a b = scoreLE (toScored a) (toScored b) := rfl

theorem scoreGE_of_scoreLER (a b : ScoredR) (h : scoreLER a b = true) :
    scoreGE (toScored a) (toScored b) := by
  intro sx sy hsx hsy
  simp only [toScored, Option.some.injEq] at hsx hsy
  simp only [scoreLER, decide_eq_true_eq] at h
  rw [← hsx, ← hsy]
  exact h

theorem all_some_exists_rep (l : List Scored)
    (h : ∀ x ∈ l, x.similarityScore.isSome = true) :
    ∃ l' : List ScoredR, l = l'.map toScored := by
  induction l with
  | nil => exact ⟨[], rfl⟩
  | cons x l ih =>
    obtain ⟨l', hl⟩ := ih (fun y hy => h y (List.mem_cons_of_mem _ hy))
    obtain ⟨s, hs⟩ := Option.isSome_iff_exists.mp (h x (List.mem_cons_self _ _))
    refine ⟨⟨x.record, s⟩ :: l', ?_⟩
    rw [List.map_cons, ← hl]
    cases x
    simp only [toScored] at hs ⊢
    rw [hs]

theorem scoredList_all_some (q : Vec) (recs : List ChunkRec)
    (hdef : ∀ r ∈ recs, (cosineSimilarity q r.embedding).isSome = true) :
    ∀ x ∈ scoredList q recs, x.similarityScore.isSome = true := by
  intro x hx
  simp only [scoredList, List.mem_map] at hx
  obtain ⟨c, hc, rfl⟩ := hx
  exact hdef c hc

theorem sortedScored_rep (q : Vec) (recs : List ChunkRec)
    (hdef : ∀ r ∈ recs, (cosineSimilarity q r.embedding).isSome = true) :
    ∃ l' : List ScoredR, scoredList q recs = l'.map toScored ∧
      sortedScored q recs = (l'.mergeSort scoreLER).map toScored := by
  obtain ⟨l', hl⟩ := all_some_exists_rep _ (scoredList_all_some q recs hdef)
  refine ⟨l', hl, ?_⟩
  rw [sortedScored, hl,
    List.map_mergeSort (fun a _ b _ => scoreLER_eq_scoreLE a b)]

/-- C2: the `/chat` top-K selection returns `min k n` records, in
non-increasing similarity-score order, and records with equal scores
keep their store (insertion) order in the stably sorted sequence of
which the output is the `k`-prefix; stated for stores all of whose
records receive a definite (non-NaN) score against the query. -/
theorem topK_spec (q : Vec) (recs : List ChunkRec) (k : Nat) (hk : 0 < k)
    (hdef : ∀ r ∈ recs, (cosineSimilarity q r.embedding).isSome = true) :
    (topK q recs k).length = min k recs.length ∧
    (topK q recs k).Pairwise scoreGE ∧
    (∀ x y : Scored, List.Sublist [x, y] (scoredList q recs) →
      x.similarityScore = y.similarityScore →
      List.Sublist [x, y] (sortedScored q recs)) := by
  obtain ⟨l', hl, hm⟩ := sortedScored_rep q recs hdef
  refine ⟨?_, ?_, ?_⟩
  · simp [topK, sortedScored, scoredList, List.length_take]
  · have hs : (l'.mergeSort scoreLER).Pairwise (scoreLER · ·) :=
      List.sorted_mergeSort scoreLER_trans scoreLER_total l'
    have hmap : (sortedScored q recs).Pairwise scoreGE := by
      rw [hm, List.pairwise_map]
      exact hs.imp (fun h => scoreGE_of_scoreLER _ _ h)
    exact hmap.sublist (List.take_sublist k _)
  · intro x y hxy heq
    rw [hl] at hxy
    obtain ⟨c, hc, hcm⟩ := List.sublist_map_iff.mp hxy
    match c, hcm with
    | [x', y'], hcm =>
      simp only [List.map_cons, List.map_nil, List.cons.injEq, and_true] at hcm
      obtain ⟨rfl, rfl⟩ := hcm
      have hscore : y'.score ≤ x'.score := by
        simp only [toScored, Option.some.injEq] at heq
        exact le_of_eq heq.symm
      have hpair : List.Sublist [x', y'] (l'.mergeSort scoreLER) :=
        List.pair_sublist_mergeSort scoreLER_trans scoreLER_total
          (by simpa [scoreLER] using hscore) hc
      rw [hm]
      simpa using hpair.map toScored

/-- C2 witness: a concrete two-record store with defined scores. -/
theorem topK_spec_witness :
    ((topK [(1 : ℚ)] [⟨"f", "c", [1]⟩, ⟨"g", "d", [1]⟩] 2).length =
      min 2 ([⟨"f", "c", [(1 : ℚ)]⟩, ⟨"g", "d", [1]⟩] : List ChunkRec).length ∧
    (topK [(1 : ℚ)] [⟨"f", "c", [1]⟩, ⟨"g", "d", [1]⟩] 2).Pairwise scoreGE ∧
    (∀ x y : Scored,
      List.Sublist [x, y] (scoredList [(1 : ℚ)] [⟨"f", "c", [1]⟩, ⟨"g", "d", [1]⟩]) →
      x.similarityScore = y.similarityScore →
      List.Sublist [x, y] (sortedScored [(1 : ℚ)] [⟨"f", "c", [1]⟩, ⟨"g", "d", [1]⟩]))) :=
  topK_spec [(1 : ℚ)] [⟨"f", "c", [1]⟩, ⟨"g", "d", [1]⟩] 2 (by decide)
    (by
      intro r hr
      simp only [List.mem_cons, List.mem_singleton] at hr
      rcases hr with rfl | rfl | h
      · simp [cosineSimilarity, sumSquares]
      · simp [cosineSimilarity, sumSquares]
      · simp at h)

/-- C3: querying an empty record store yields the explicit
`noRelevantResults` signal (the HTTP 404 error), never a success
answer. -/
theorem chat_empty_store (q : Vec) :
    chatHandler q [] = ChatResult.noRelevantResults ∧
    ∀ s, chatHandler q [] ≠ ChatResult.answer s := by
  constructor
  · simp [chatHandler, similarChunks, topK, sortedScored, scoredList]
  · intro s
    simp [chatHandler, similarChunks, topK, sortedScored, scoredList]

/-- One response of the external embedding provider to one call:
a vector, an HTTP 429 rate-limit error, or any other provider error. -/
inductive ProviderResult
  | success (v : Vec)
  | rateLimited
  | otherError
deriving DecidableEq

/-- Whether a provider response delivered a vector. -/
def ProviderResult.isSuccess : ProviderResult → Bool
  | ProviderResult.success _ => true
  | _ => false

/-- The external embedding provider as an oracle: the response to the
n-th provider call of the process (global call index) for a given input
text. -/
abbrev Provider := Nat → String → ProviderResult

/-- The errors surfaced by `getEmbedding`: the rethrown 429 after the
retry budget is exhausted (the spec's `RateLimitExceeded`), and any
other rethrown provider error (the spec's `EmbeddingProviderError`). -/
inductive EmbedErr
  | rateLimitExceeded
  | providerError
deriving DecidableEq

/-- The gateway's process state: the `embeddingCache` object keyed by
exact text, the chronological log of provider calls (text sent and
response received), and the total seconds slept in backoff waits. -/
structure GatewayState where
  cache : String → Option Vec
  log : List (String × ProviderResult)
  delaySec : Nat

/-- The gateway state at process start: empty cache, no calls. -/
def initState : GatewayState := ⟨fun _ => none, [], 0⟩

/-- Provider calls recorded for a given exact text. -/
def countCalls (log : List (String × ProviderResult)) (t : String) : Nat :=
  (log.filter (fun e => e.1 = t)).length

/-- Successful provider calls recorded for a given exact text. -/
def countSuccesses (log : List (String × ProviderResult)) (t : String) : Nat :=
  (log.filter (fun e => e.1 = t && e.2.isSuccess)).length

/-- `getEmbedding(text, attempt = 1)` from the exponential-backoff
variant (`src/unnamed/part_003` lines 66-84): return the cached vector
if the exact text is cached; otherwise call the provider; on success
store the vector in the cache keyed by the exact input text and return
it; on a 429 with `attempt < 5` sleep `2 ^ attempt` seconds and retry
with `attempt + 1`; otherwise rethrow the error. -/
def getEmbedding (p : Provider) (text : String) (st : GatewayState)
    (attempt : Nat) : Except EmbedErr Vec × GatewayState :=
  match st.cache text with
  | some v => (Except.ok v, st)
  | none =>
    match p st.log.length text with
    | ProviderResult.success v =>
      (Except.ok v,
        ⟨fun s => if s = text then some v else st.cache s,
          st.log ++ [(text, ProviderResult.success v)], st.delaySec⟩)
    | ProviderResult.rateLimited =>
      if attempt < 5 then
        getEmbedding p text
          ⟨st.cache, st.log ++ [(text, ProviderResult.rateLimited)],
            st.delaySec + 2 ^ attempt⟩
          (attempt + 1)
      else
        (Except.error EmbedErr.rateLimitExceeded,
          ⟨st.cache, st.log ++ [(text, ProviderResult.rateLimited)], st.delaySec⟩)
    | ProviderResult.otherError =>
      (Except.error EmbedErr.providerError,
        ⟨st.cache, st.log ++ [(text, ProviderResult.otherError)], st.delaySec⟩)
termination_by 5 - attempt
decreasing_by omega

/-- A process lifetime of embedding invocations: each request text is
served by `getEmbedding` (starting at attempt 1), threading the state. -/
def runEmbeds (p : Provider) (texts : List String) (st : GatewayState) :
    GatewayState :=
  match texts with
  | [] => st
  | t :: ts => runEmbeds p ts (getEmbedding p t st 1).2

theorem countSuccesses_append (l : List (String × ProviderResult))
    (e : String × ProviderResult) (t : String) :
    countSuccesses (l ++ [e]) t =
      countSuccesses l t + (if e.1 = t ∧ e.2.isSuccess then 1 else 0) := by
  simp only [countSuccesses, List.filter_append, List.length_append]
  by_cases h : e.1 = t ∧ e.2.isSuccess
  · simp [List.filter, h.1, h.2]
  · rw [Decidable.not_and_iff_or_not] at h
    rcases h with h | h <;> simp [List.filter, h]

/-- The per-text cache/log invariant maintained by the gateway: at most
one successful provider call is ever logged for a text, and none before
the text is cached. -/
def CacheInv (st : GatewayState) (t : String) : Prop :=
  countSuccesses st.log t ≤ 1 ∧
    (st.cache t = none → countSuccesses st.log t = 0)

theorem initState_cacheInv (t : String) : CacheInv initState t := by
  constructor <;> simp [initState, countSuccesses]

theorem getEmbedding_inv (p : Provider) (text t : String) :
    ∀ fuel attempt st, 5 - attempt ≤ fuel → CacheInv st t →
      CacheInv (getEmbedding p text st attempt).2 t := by
  intro fuel
  induction fuel with
  | zero =>
    intro attempt st hfuel hinv
    have hatt : ¬ attempt < 5 := by omega
    rw [getEmbedding]
    cases hcache : st.cache text with
    | some v => exact hinv
    | none =>
      cases hp : p st.log.length text with
      | success v =>
        simp only
        constructor
        · rw [countSuccesses_append]
          by_cases ht : t = text
          · subst ht
            have h0 := hinv.2 hcache
            simp [h0, ProviderResult.isSuccess]
          · simp only [ProviderResult.isSuccess]
            rw [if_neg (by simp [Ne.symm ht])]
            simpa using hinv.1
        · intro hc
          simp only at hc
          rw [countSuccesses_append]
          by_cases ht : t = text
          · subst ht
            simp at hc
          · rw [if_neg (by simp [Ne.symm ht])]
            simp only [if_neg ht] at hc
            simpa using hinv.2 hc
      | rateLimited =>
        simp only [if_neg hatt]
        refine ⟨?_, ?_⟩
        · rw [countSuccesses_append]
          simpa [ProviderResult.isSuccess] using hinv.1
        · intro hc
          rw [countSuccesses_append]
          simpa [ProviderResult.isSuccess] using hinv.2 hc
      | otherError =>
        refine ⟨?_, ?_⟩
        · rw [countSuccesses_append]
          simpa [ProviderResult.isSuccess] using hinv.1
        · intro hc
          rw [countSuccesses_append]
          simpa [ProviderResult.isSuccess] using hinv.2 hc
  | succ fuel ih =>
    intro attempt st hfuel hinv
    rw [getEmbedding]
    cases hcache : st.cache text with
    | some v => exact hinv
    | none =>
      cases hp : p st.log.length text with
      | success v =>
        simp only
        constructor
        · rw [countSuccesses_append]
          by_cases ht : t = text
          · subst ht
            have h0 := hinv.2 hcache
            simp [h0, ProviderResult.isSuccess]
          · simp only [ProviderResult.isSuccess]
            rw [if_neg (by simp [Ne.symm ht])]
            simpa using hinv.1
        · intro hc
          simp only at hc
          rw [countSuccesses_append]
          by_cases ht : t = text
          · subst ht
            simp at hc
          · rw [if_neg (by simp [Ne.symm ht])]
            simp only [if_neg ht] at hc
            simpa using hinv.2 hc
      | rateLimited =>
        by_cases hatt : attempt < 5
        · simp only [if_pos hatt]
          apply ih (attempt + 1) _ (by omega)
          refine ⟨?_, ?_⟩
          · rw [countSuccesses_append]
            simpa [ProviderResult.isSuccess] using hinv.1
          · intro hc
            rw [countSuccesses_append]
            simpa [ProviderResult.isSuccess] using hinv.2 hc
        · simp only [if_neg hatt]
          refine ⟨?_, ?_⟩
          · rw [countSuccesses_append]
            simpa [ProviderResult.isSuccess] using hinv.1
          · intro hc
            rw [countSuccesses_append]
            simpa [ProviderResult.isSuccess] using hinv.2 hc
      | otherError =>
        refine ⟨?_, ?_⟩
        · rw [countSuccesses_append]
          simpa [ProviderResult.isSuccess] using hinv.1
        · intro hc
          rw [countSuccesses_append]
          simpa [ProviderResult.isSuccess] using hinv.2 hc

theorem runEmbeds_inv (p : Provider) (t : String) :
    ∀ texts st, CacheInv st t → CacheInv (runEmbeds p texts st) t := by
  intro texts
  induction texts with
  | nil => intro st h; exact h
  | cons x ts ih =>
    intro st h
    exact ih _ (getEmbedding_inv p x t 5 1 st (by omega) h)

/-- C5: starting from a cache miss, a persistently rate-limited text is
retried with exponential backoff (waits of 2^1, 2^2, 2^3, 2^4 seconds),
making exactly 5 provider calls (the configured maximum attempt count)
before failing with `rateLimitExceeded`; any other provider error fails
immediately with `providerError`: no retry, no wait, exactly one
provider call. -/
theorem getEmbedding_retry_policy (p : Provider) (text : String)
    (st : GatewayState) (hmiss : st.cache text = none) :
    ((∀ n, p n text = ProviderResult.rateLimited) →
      getEmbedding p text st 1 =
        (Except.error EmbedErr.rateLimitExceeded,
          ⟨st.cache, st.log ++ [(text, ProviderResult.rateLimited),
            (text, ProviderResult.rateLimited), (text, ProviderResult.rateLimited),
            (text, ProviderResult.rateLimited), (text, ProviderResult.rateLimited)],
            st.delaySec + (2 ^ 1 + 2 ^ 2 + 2 ^ 3 + 2 ^ 4)⟩)) ∧
    (∀ attempt, p st.log.length text = ProviderResult.otherError →
      getEmbedding p text st attempt =
        (Except.error EmbedErr.providerError,
          ⟨st.cache, st.log ++ [(text, ProviderResult.otherError)],
            st.delaySec⟩)) := by
  constructor
  · intro hp
    rw [getEmbedding]
    simp only [hmiss, hp]
    rw [getEmbedding]
    simp only [hmiss, hp]
    rw [getEmbedding]
    simp only [hmiss, hp]
    rw [getEmbedding]
    simp only [hmiss, hp]
    rw [getEmbedding]
    simp only [hmiss, hp]
    simp
  · intro attempt hp
    rw [getEmbedding]
    simp only [hmiss, hp]

/-- C5 witness: the retry policy at a concrete always-rate-limited
provider and at a concrete provider failing with a non-429 error. -/
theorem getEmbedding_retry_policy_witness :
    (getEmbedding (fun _ _ => ProviderResult.rateLimited) "t" initState 1 =
      (Except.error EmbedErr.rateLimitExceeded,
        ⟨initState.cache, initState.log ++ [("t", ProviderResult.rateLimited),
          ("t", ProviderResult.rateLimited), ("t", ProviderResult.rateLimited),
          ("t", ProviderResult.rateLimited), ("t", ProviderResult.rateLimited)],
          initState.delaySec + (2 ^ 1 + 2 ^ 2 + 2 ^ 3 + 2 ^ 4)⟩)) ∧
    (getEmbedding (fun _ _ => ProviderResult.otherError) "t" initState 3 =
      (Except.error EmbedErr.providerError,
        ⟨initState.cache, initState.log ++ [("t", ProviderResult.otherError)],
          initState.delaySec⟩)) :=
  ⟨(getEmbedding_retry_policy (fun _ _ => ProviderResult.rateLimited) "t"
      initState rfl).1 (fun _ => rfl),
    (getEmbedding_retry_policy (fun _ _ => ProviderResult.otherError) "t"
      initState rfl).2 3 rfl⟩

/-- C4 (amended): the gateway makes at most one SUCCESSFUL provider
call per exact text over the process lifetime: a cached text is
returned without contacting the provider, and a successful provider
call stores its vector in the cache keyed by the exact input text
before returning it. (Rate-limit retries and repeated failing
invocations may contact the provider more than once for the same text:
see the counterexample.) -/
theorem embedding_cache_policy (p : Provider) (text t : String)
    (st : GatewayState) (attempt : Nat) :
    (∀ v, st.cache text = some v →
      getEmbedding p text st attempt = (Except.ok v, st)) ∧
    (∀ v, st.cache text = none →
      p st.log.length text = ProviderResult.success v →
      getEmbedding p text st attempt =
        (Except.ok v, ⟨fun s => if s = text then some v else st.cache s,
          st.log ++ [(text, ProviderResult.success v)], st.delaySec⟩)) ∧
    (∀ texts, countSuccesses (runEmbeds p texts initState).log t ≤ 1) := by
  refine ⟨?_, ?_, ?_⟩
  · intro v hv
    rw [getEmbedding, hv]
  · intro v hmiss hp
    rw [getEmbedding]
    simp only [hmiss, hp]
  · intro texts
    exact (runEmbeds_inv p t texts initState (initState_cacheInv t)).1

/-- C4 witness: cache hit without provider contact, caching on success,
and the at-most-one-successful-call bound on a concrete two-request
run. -/
theorem embedding_cache_policy_witness :
    (getEmbedding (fun _ _ => ProviderResult.success [1]) "a"
      ⟨fun s => if s = "a" then some [2] else none, [], 0⟩ 1 =
      (Except.ok ([2] : Vec),
        ⟨fun s => if s = "a" then some [2] else none, [], 0⟩)) ∧
    (getEmbedding (fun _ _ => ProviderResult.success [1]) "a" initState 1 =
      (Except.ok ([1] : Vec),
        ⟨fun s => if s = "a" then some [1] else initState.cache s,
          initState.log ++ [("a", ProviderResult.success [1])],
          initState.delaySec⟩)) ∧
    countSuccesses (runEmbeds (fun _ _ => ProviderResult.success [1])
      ["a", "a"] initState).log "a" ≤ 1 :=
  ⟨(embedding_cache_policy (fun _ _ => ProviderResult.success [1]) "a" "a"
      ⟨fun s => if s = "a" then some [2] else none, [], 0⟩ 1).1 [2] (by simp),
    (embedding_cache_policy (fun _ _ => ProviderResult.success [1]) "a" "a"
      initState 1).2.1 [1] rfl rfl,
    (embedding_cache_policy (fun _ _ => ProviderResult.success [1]) "a" "a"
      initState 1).2.2 ["a", "a"]⟩

/-- C4 counterexample: one embedding invocation for the text "t"
against a persistently rate-limited provider contacts the provider five
times for "t", so more than one external call is made for a single
distinct text during the process lifetime. -/
theorem embedding_at_most_one_call_counterexample :
    countCalls ((getEmbedding (fun _ _ => ProviderResult.rateLimited) "t"
      initState 1).2.log) "t" = 5 ∧
    ¬ countCalls ((getEmbedding (fun _ _ => ProviderResult.rateLimited) "t"
      initState 1).2.log) "t" ≤ 1 := by
  have h : (getEmbedding (fun _ _ => ProviderResult.rateLimited) "t"
      initState 1).2.log = [("t", ProviderResult.rateLimited),
        ("t", ProviderResult.rateLimited), ("t", ProviderResult.rateLimited),
        ("t", ProviderResult.rateLimited), ("t", ProviderResult.rateLimited)] := by
    rw [getEmbedding]
    simp only [initState]
    rw [getEmbedding]
    simp only
    rw [getEmbedding]
    simp only
    rw [getEmbedding]
    simp only
    rw [getEmbedding]
    simp
  rw [h]
  constructor
  · rfl
  · simp [countCalls]

/-- Record documents built for a chunk/vector pairing: in
`server.js` the save loop `for (i = 0; i < chunks.length; i++)
new Chunk({ fileName, chunk: chunks[i], embedding: embeddingsArray[i] })`,
and in the batched variants `batchChunks.map((chunk, j) => ({ fileName,
chunk, embedding: embeddingsArray[j] }))`. An out-of-range
`embeddingsArray[i]` would be JS `undefined` (here the default `[]`);
the provider's length-preserving contract rules that out. -/
def mkDocs (fileName : String) (chunks : List String) (vecs : List Vec) :
    List ChunkRec :=
  (List.range chunks.length).map
    (fun i => ⟨fileName, chunks.getD i "", vecs.getD i []⟩)

/-- Modelled from the spec: the external embedding provider's batch call
`embedDocuments` (the spec's `embedMany`, an excluded collaborator)
returns one vector per input text, preserving input order; for a
per-text embedding function `f` that is exactly `texts.map f`. -/
def embedDocuments (f : String → Vec) (texts : List String) : List Vec :=
  texts.map f

/-- The batches `chunks.slice(i, i + 5)` visited by the batched
`/upload` loop `for (i = 0; i < chunks.length; i += 5)`. -/
def batchesOf (chunks : List String) : List (List String) :=
  if h : chunks = [] then []
  else chunks.take 5 :: batchesOf (chunks.drop 5)
termination_by chunks.length
decreasing_by
  simp only [List.length_drop]
  have := List.length_pos.mpr h
  omega

/-- The records one batch contributes to the store. -/
def batchDocs (fileName : String) (emb : List String → List Vec)
    (b : List String) : List ChunkRec :=
  mkDocs fileName b (emb b)

/-- The batch loop of the batched `/upload` handler
(`src/unnamed/part_004` lines 82-95): embed the batch
`chunks.slice(i, i + 5)` with one `embedDocuments` call, build its
record documents, bulk-insert them with `insertMany`, then move on.
Returns the successive store snapshots (one after each `insertMany`)
paired with the final store. -/
def uploadBatchLoop (fileName : String) (emb : List String → List Vec)
    (chunks : List String) (store : List ChunkRec) :
    List (List ChunkRec) × List ChunkRec :=
  if h : chunks = [] then ([], store)
  else
    let docs := batchDocs fileName emb (chunks.take 5)
    let rest := uploadBatchLoop fileName emb (chunks.drop 5) (store ++ docs)
    ((store ++ docs) :: rest.1, rest.2)
termination_by chunks.length
decreasing_by
  simp only [List.length_drop]
  have := List.length_pos.mpr h
  omega

/-- An uploaded file as the `/upload` handler sees it: the client
filename and the plain text its (external) extractor yields. -/
structure UFile where
  originalname : String
  content : String
deriving DecidableEq

/-- Characters after the last dot of a filename, or `none` if it has no
dot (the recursion prefers an extension found later in the name). -/
def extAux : List Char → Option (List Char)
  | [] => none
  | c :: cs =>
    match extAux cs with
    | some e => some e
    | none => if c = '.' then some cs else none

/-- `path.extname(name).toLowerCase()`: the final `.ext` suffix of the
filename, lowercased; the empty string when the name has no dot. -/
def extnameLower (name : String) : String :=
  match extAux name.toList with
  | none => ""
  | some e => String.mk ('.' :: e.map Char.toLower)

/-- The `/upload` dispatch condition: the file's lowercased extension
names one of the two supported formats. -/
abbrev isSupported (f : UFile) : Prop :=
  extnameLower f.originalname = ".docx" ∨ extnameLower f.originalname = ".pdf"

/-- The caller-visible outcome of the `/upload` handler: a 200 JSON
body listing each processed file's name with its chunks, or the single
catch-all 500 "Failed to process the files" response. -/
inductive UploadResult
  | ok (files : List (String × List String))
  | serverError
deriving DecidableEq

/-- The `/upload` handler of `server.js` (lines 64-143): the whole
file loop runs inside a single try/catch. Each file is dispatched on
its extension: DOCX and PDF files are text-extracted (may throw),
split into chunks, embedded (may throw), and their records saved;
files of any other format are skipped with `continue`. Any thrown
error lands in the one surrounding catch, which sends the 500 response
and performs no further processing; records already stored stay
stored. `split` models the external `RecursiveCharacterTextSplitter`,
`extract` the external DOCX/PDF text extractors, `embedDocs` the
provider call. -/
def uploadHandler (split : String → List String)
    (extract : UFile → Except Unit String)
    (embedDocs : List String → Except Unit (List Vec)) :
    List UFile → List (String × List String) → List ChunkRec →
    UploadResult × List ChunkRec
  | [], acc, store => (UploadResult.ok acc, store)
  | f :: rest, acc, store =>
    if isSupported f then
      match extract f with
      | Except.error _ => (UploadResult.serverError, store)
      | Except.ok content =>
        match embedDocs (split content) with
        | Except.error _ => (UploadResult.serverError, store)
        | Except.ok vecs =>
          uploadHandler split extract embedDocs rest
            (acc ++ [(f.originalname, split content)])
            (store ++ mkDocs f.originalname (split content) vecs)
    else
      uploadHandler split extract embedDocs rest acc store

theorem batchesOf_nil : batchesOf [] = [] := by
  rw [batchesOf]
  simp

theorem batchesOf_ne {chunks : List String} (h : chunks ≠ []) :
    batchesOf chunks = chunks.take 5 :: batchesOf (chunks.drop 5) := by
  rw [batchesOf]
  simp [h]

theorem batchesOf_flatten_aux : ∀ n (chunks : List String),
    chunks.length ≤ n → (batchesOf chunks).flatten = chunks := by
  intro n
  induction n with
  | zero =>
    intro chunks h
    have hc : chunks = [] := List.length_eq_zero.mp (Nat.le_zero.mp h)
    subst hc
    simp [batchesOf_nil]
  | succ n ih =>
    intro chunks h
    by_cases hc : chunks = []
    · subst hc
      simp [batchesOf_nil]
    · rw [batchesOf_ne hc, List.flatten_cons,
        ih _ (by simp only [List.length_drop]; have := List.length_pos.mpr hc; omega)]
      exact List.take_append_drop 5 chunks

theorem batchesOf_sizes_aux : ∀ n (chunks : List String),
    chunks.length ≤ n → ∀ j < (batchesOf chunks).length,
      ((batchesOf chunks).getD j []).length ≤ 5 ∧
      (batchesOf chunks).getD j [] ≠ [] := by
  intro n
  induction n with
  | zero =>
    intro chunks h j hj
    have hc : chunks = [] := List.length_eq_zero.mp (Nat.le_zero.mp h)
    subst hc
    simp [batchesOf_nil] at hj
  | succ n ih =>
    intro chunks h j hj
    by_cases hc : chunks = []
    · subst hc
      simp [batchesOf_nil] at hj
    · rw [batchesOf_ne hc] at hj ⊢
      cases j with
      | zero =>
        refine ⟨List.length_take_le 5 chunks, ?_⟩
        simp only [List.getD_cons_zero]
        rw [Ne, List.take_eq_nil_iff]
        simp [hc]
      | succ j =>
        simp only [List.getD_cons_succ]
        simp only [List.length_cons] at hj
        exact ih _ (by simp only [List.length_drop]; have := List.length_pos.mpr hc; omega)
          j (by omega)

theorem batchesOf_full_aux : ∀ n (chunks : List String),
    chunks.length ≤ n → ∀ j, j + 1 < (batchesOf chunks).length →
      ((batchesOf chunks).getD j []).length = 5 := by
  intro n
  induction n with
  | zero =>
    intro chunks h j hj
    have hc : chunks = [] := List.length_eq_zero.mp (Nat.le_zero.mp h)
    subst hc
    simp [batchesOf_nil] at hj
  | succ n ih =>
    intro chunks h j hj
    by_cases hc : chunks = []
    · subst hc
      simp [batchesOf_nil] at hj
    · rw [batchesOf_ne hc] at hj ⊢
      cases j with
      | zero =>
        simp only [List.length_cons] at hj
        have hrest : batchesOf (chunks.drop 5) ≠ [] := by
          intro he
          rw [he] at hj
          simp at hj
        have hdrop : chunks.drop 5 ≠ [] := by
          intro he
          rw [he, batchesOf_nil] at hrest
          exact hrest rfl
        have hlen : 5 < chunks.length := by
          by_contra hnot
          exact hdrop (List.drop_eq_nil_of_le (by omega))
        simp only [List.getD_cons_zero, List.length_take]
        omega
      | succ j =>
        simp only [List.getD_cons_succ]
        simp only [List.length_cons] at hj
        exact ih _ (by simp only [List.length_drop]; have := List.length_pos.mpr hc; omega)
          j (by omega)

theorem uploadBatchLoop_nil (fileName : String)
    (emb : List String → List Vec) (store : List ChunkRec) :
    uploadBatchLoop fileName emb [] store = ([], store) := by
  rw [uploadBatchLoop]
  simp

theorem uploadBatchLoop_ne (fileName : String)
    (emb : List String → List Vec) {chunks : List String}
    (h : chunks ≠ []) (store : List ChunkRec) :
    uploadBatchLoop fileName emb chunks store =
      ((store ++ batchDocs fileName emb (chunks.take 5)) ::
        (uploadBatchLoop fileName emb (chunks.drop 5)
          (store ++ batchDocs fileName emb (chunks.take 5))).1,
        (uploadBatchLoop fileName emb (chunks.drop 5)
          (store ++ batchDocs fileName emb (chunks.take 5))).2) := by
  rw [uploadBatchLoop]
  simp [h]

theorem uploadBatchLoop_spec_aux (fileName : String)
    (emb : List String → List Vec) : ∀ n (chunks : List String),
    chunks.length ≤ n → ∀ store : List ChunkRec,
      (uploadBatchLoop fileName emb chunks store).1.length =
        (batchesOf chunks).length ∧
      (∀ j < (batchesOf chunks).length,
        (uploadBatchLoop fileName emb chunks store).1.getD j [] =
          store ++ (((batchesOf chunks).take (j + 1)).map
            (batchDocs fileName emb)).flatten) ∧
      (uploadBatchLoop fileName emb chunks store).2 =
        store ++ ((batchesOf chunks).map (batchDocs fileName emb)).flatten := by
  intro n
  induction n with
  | zero =>
    intro chunks h store
    have hc : chunks = [] := List.length_eq_zero.mp (Nat.le_zero.mp h)
    subst hc
    simp [batchesOf_nil, uploadBatchLoop_nil]
  | succ n ih =>
    intro chunks h store
    by_cases hc : chunks = []
    · subst hc
      simp [batchesOf_nil, uploadBatchLoop_nil]
    · have hdrop : (chunks.drop 5).length ≤ n := by
        simp only [List.length_drop]
        have := List.length_pos.mpr hc
        omega
      obtain ⟨ih1, ih2, ih3⟩ := ih (chunks.drop 5) hdrop
        (store ++ batchDocs fileName emb (chunks.take 5))
      rw [uploadBatchLoop_ne fileName emb hc store, batchesOf_ne hc]
      refine ⟨by simpa using ih1, ?_, by simpa [List.append_assoc] using ih3⟩
      intro j hj
      cases j with
      | zero => simp
      | succ j =>
        simp only [List.getD_cons_succ, List.take_succ_cons, List.map_cons,
          List.flatten_cons, ← List.append_assoc]
        simp only [List.length_cons] at hj
        exact ih2 j (by omega)

/-- C6: batched ingestion of a document's chunks proceeds in sequential
slices of at most 5 (every batch except possibly the last has exactly
5, none is empty, and in order they partition the chunk list), and each
batch's records are persisted before the next batch is embedded: the
j-th store snapshot (taken right after the j-th `insertMany`) contains
the prior store plus exactly the records of batches `0..j`, and nothing
of any later batch; the final store appends every batch's records in
order. -/
theorem upload_batching_spec (fileName : String)
    (emb : List String → List Vec) (chunks : List String)
    (store : List ChunkRec) :
    (batchesOf chunks).flatten = chunks ∧
    (∀ j < (batchesOf chunks).length,
      ((batchesOf chunks).getD j []).length ≤ 5 ∧
      (batchesOf chunks).getD j [] ≠ []) ∧
    (∀ j, j + 1 < (batchesOf chunks).length →
      ((batchesOf chunks).getD j []).length = 5) ∧
    (uploadBatchLoop fileName emb chunks store).1.length =
      (batchesOf chunks).length ∧
    (∀ j < (batchesOf chunks).length,
      (uploadBatchLoop fileName emb chunks store).1.getD j [] =
        store ++ (((batchesOf chunks).take (j + 1)).map
          (batchDocs fileName emb)).flatten) ∧
    (uploadBatchLoop fileName emb chunks store).2 =
      store ++ ((batchesOf chunks).map (batchDocs fileName emb)).flatten := by
  obtain ⟨h1, h2, h3⟩ :=
    uploadBatchLoop_spec_aux fileName emb chunks.length chunks le_rfl store
  exact ⟨batchesOf_flatten_aux chunks.length chunks le_rfl,
    batchesOf_sizes_aux chunks.length chunks le_rfl,
    batchesOf_full_aux chunks.length chunks le_rfl, h1, h2, h3⟩

/-- C6 witness: a concrete six-chunk ingestion, split into a full batch
of 5 and a final batch of 1. -/
theorem upload_batching_spec_witness :
    ((batchesOf ["a", "b", "c", "d", "e", "f"]).flatten =
      ["a", "b", "c", "d", "e", "f"]) ∧
    (((batchesOf ["a", "b", "c", "d", "e", "f"]).getD 0 []).length ≤ 5 ∧
      (batchesOf ["a", "b", "c", "d", "e", "f"]).getD 0 [] ≠ []) ∧
    (((batchesOf ["a", "b", "c", "d", "e", "f"]).getD 0 []).length = 5) ∧
    ((uploadBatchLoop "f" (fun ts => ts.map (fun _ => ([1] : Vec)))
        ["a", "b", "c", "d", "e", "f"] []).1.length =
      (batchesOf ["a", "b", "c", "d", "e", "f"]).length) ∧
    ((uploadBatchLoop "f" (fun ts => ts.map (fun _ => ([1] : Vec)))
        ["a", "b", "c", "d", "e", "f"] []).1.getD 0 [] =
      [] ++ (((batchesOf ["a", "b", "c", "d", "e", "f"]).take (0 + 1)).map
        (batchDocs "f" (fun ts => ts.map (fun _ => ([1] : Vec))))).flatten) ∧
    ((uploadBatchLoop "f" (fun ts => ts.map (fun _ => ([1] : Vec)))
        ["a", "b", "c", "d", "e", "f"] []).2 =
      [] ++ ((batchesOf ["a", "b", "c", "d", "e", "f"]).map
        (batchDocs "f" (fun ts => ts.map (fun _ => ([1] : Vec))))).flatten) := by
  have h := upload_batching_spec "f" (fun ts => ts.map (fun _ => ([1] : Vec)))
    ["a", "b", "c", "d", "e", "f"] []
  exact ⟨h.1, h.2.1 0 (by simp [batchesOf]), h.2.2.1 0 (by simp [batchesOf]),
    h.2.2.2.1, h.2.2.2.2.1 0 (by simp [batchesOf]), h.2.2.2.2.2⟩

/-- C7: batch embedding preserves input order: under the provider's
order-preserving contract the i-th returned vector is the embedding of
the i-th input text, record construction preserves length, and the i-th
persisted record pairs the i-th chunk text with the i-th vector and the
originating file's name. -/
theorem upload_pairing_spec (fileName : String) (f : String → Vec)
    (chunks : List String) (i : Nat) (hi : i < chunks.length) :
    (embedDocuments f chunks).getD i [] = f (chunks.getD i "") ∧
    (mkDocs fileName chunks (embedDocuments f chunks)).length =
      chunks.length ∧
    (mkDocs fileName chunks (embedDocuments f chunks)).getD i ⟨"", "", []⟩ =
      ⟨fileName, chunks.getD i "", f (chunks.getD i "")⟩ := by
  have h1 : (embedDocuments f chunks).getD i [] = f (chunks.getD i "") := by
    rw [embedDocuments, List.getD_eq_getElem?_getD, List.getD_eq_getElem?_getD,
      List.getElem?_map, List.getElem?_eq_getElem hi]
    rfl
  refine ⟨h1, by simp [mkDocs], ?_⟩
  have hlen : i < (mkDocs fileName chunks (embedDocuments f chunks)).length := by
    simpa [mkDocs] using hi
  rw [List.getD_eq_getElem?_getD, List.getElem?_eq_getElem hlen]
  simp only [mkDocs, List.getElem_map, List.getElem_range, Option.getD_some]
  rw [h1]

/-- C7 witness: concrete pairing at index 1 of a two-chunk file. -/
theorem upload_pairing_spec_witness :
    (embedDocuments (fun s => [(s.length : ℚ)]) ["aa", "b"]).getD 1 [] =
      (fun s => [(s.length : ℚ)]) (["aa", "b"].getD 1 "") ∧
    (mkDocs "f" ["aa", "b"]
      (embedDocuments (fun s => [(s.length : ℚ)]) ["aa", "b"])).length =
      (["aa", "b"] : List String).length ∧
    (mkDocs "f" ["aa", "b"]
      (embedDocuments (fun s => [(s.length : ℚ)]) ["aa", "b"])).getD 1
        ⟨"", "", []⟩ =
      ⟨"f", ["aa", "b"].getD 1 "",
        (fun s => [(s.length : ℚ)]) (["aa", "b"].getD 1 "")⟩ :=
  upload_pairing_spec "f" (fun s => [(s.length : ℚ)]) ["aa", "b"] 1 (by decide)

/-- C9: an unsupported-format file anywhere in an upload is skipped
without raising an error: the handler's result (response and final
store) is exactly what it would be had the file not been part of the
request, so ingestion continues with the remaining files and no record
is persisted for the skipped file. -/
theorem upload_unsupported_skipped (split : String → List String)
    (extract : UFile → Except Unit String)
    (embedDocs : List String → Except Unit (List Vec)) (f : UFile)
    (hf : ¬ isSupported f) :
    ∀ pre post acc store,
      uploadHandler split extract embedDocs (pre ++ f :: post) acc store =
        uploadHandler split extract embedDocs (pre ++ post) acc store := by
  intro pre
  induction pre with
  | nil =>
    intro post acc store
    simp only [List.nil_append]
    rw [uploadHandler]
    simp [hf]
  | cons g pre ih =>
    intro post acc store
    simp only [List.cons_append, uploadHandler]
    by_cases hg : isSupported g
    · simp only [if_pos hg]
      cases hx : extract g with
      | error e => rfl
      | ok content =>
        dsimp only
        cases hy : embedDocs (split content) with
        | error e => rfl
        | ok vecs =>
          dsimp only
          exact ih post _ _
    · simp only [if_neg hg]
      exact ih post acc store

/-- C9 witness: a concrete upload where the unsupported "notes.txt" is
skipped between two processed files. -/
theorem upload_unsupported_skipped_witness :
    uploadHandler (fun c => [c]) (fun g => Except.ok g.content)
      (fun ts => Except.ok (ts.map (fun _ => ([1] : Vec))))
      ([⟨"a.docx", "x"⟩] ++ ⟨"notes.txt", "hi"⟩ :: [⟨"b.pdf", "y"⟩]) [] [] =
    uploadHandler (fun c => [c]) (fun g => Except.ok g.content)
      (fun ts => Except.ok (ts.map (fun _ => ([1] : Vec))))
      ([⟨"a.docx", "x"⟩] ++ [⟨"b.pdf", "y"⟩]) [] [] :=
  upload_unsupported_skipped (fun c => [c]) (fun g => Except.ok g.content)
    (fun ts => Except.ok (ts.map (fun _ => ([1] : Vec))))
    ⟨"notes.txt", "hi"⟩ (by decide) [⟨"a.docx", "x"⟩] [⟨"b.pdf", "y"⟩] [] []

theorem uploadHandler_append (split : String → List String)
    (extract : UFile → Except Unit String)
    (embedDocs : List String → Except Unit (List Vec)) :
    ∀ pre rest acc store,
      uploadHandler split extract embedDocs (pre ++ rest) acc store =
        match uploadHandler split extract embedDocs pre acc store with
        | (UploadResult.ok acc2, store2) =>
            uploadHandler split extract embedDocs rest acc2 store2
        | (UploadResult.serverError, store2) =>
            (UploadResult.serverError, store2) := by
  intro pre
  induction pre with
  | nil =>
    intro rest acc store
    simp [uploadHandler]
  | cons g pre ih =>
    intro rest acc store
    simp only [List.cons_append, uploadHandler]
    by_cases hg : isSupported g
    · simp only [if_pos hg]
      cases hx : extract g with
      | error e => rfl
      | ok content =>
        dsimp only
        cases hy : embedDocs (split content) with
        | error e => rfl
        | ok vecs =>
          dsimp only
          exact ih rest _ _
    · simp only [if_neg hg]
      exact ih rest acc store

/-- C8 (amended): a failure while processing one file aborts the whole
request's remaining processing: once a supported file's extraction or
embedding throws, the handler answers with the 500 error, sibling files
after the failing one are never processed (the result does not depend
on them), and exactly the records committed before the failure remain
stored. -/
theorem upload_failure_aborts (split : String → List String)
    (extract : UFile → Except Unit String)
    (embedDocs : List String → Except Unit (List Vec))
    (pre : List UFile) (f : UFile) (post : List UFile)
    (acc acc2 : List (String × List String)) (store store2 : List ChunkRec)
    (hpre : uploadHandler split extract embedDocs pre acc store =
      (UploadResult.ok acc2, store2))
    (hsupp : isSupported f)
    (hfail : extract f = Except.error () ∨
      ∃ c, extract f = Except.ok c ∧ embedDocs (split c) = Except.error ()) :
    uploadHandler split extract embedDocs (pre ++ f :: post) acc store =
      (UploadResult.serverError, store2) := by
  rw [uploadHandler_append, hpre]
  simp only
  rw [uploadHandler]
  simp only [if_pos hsupp]
  rcases hfail with h | ⟨c, hc, he⟩
  · rw [h]
  · rw [hc]
    dsimp only
    rw [he]

/-- C8 witness: with "a.docx" processed first, a failing "b.docx"
aborts the request before "c.pdf", keeping only "a.docx"'s record. -/
theorem upload_failure_aborts_witness :
    uploadHandler (fun c => [c])
      (fun g => if g.originalname = "b.docx" then Except.error ()
        else Except.ok g.content)
      (fun ts => Except.ok (ts.map (fun _ => ([1] : Vec))))
      ([⟨"a.docx", "x"⟩] ++ ⟨"b.docx", "y"⟩ :: [⟨"c.pdf", "z"⟩]) [] [] =
      (UploadResult.serverError, [⟨"a.docx", "x", [1]⟩]) :=
  upload_failure_aborts (fun c => [c])
    (fun g => if g.originalname = "b.docx" then Except.error ()
      else Except.ok g.content)
    (fun ts => Except.ok (ts.map (fun _ => ([1] : Vec))))
    [⟨"a.docx", "x"⟩] ⟨"b.docx", "y"⟩ [⟨"c.pdf", "z"⟩]
    [] [("a.docx", ["x"])] [] [⟨"a.docx", "x", [1]⟩]
    (by decide) (by decide) (Or.inl rfl)

/-- C8 counterexample: in the two-file request `[a.docx, b.docx]` where
`a.docx` fails embedding-side and `b.docx` alone would succeed, the
handler returns the 500 error with an empty store: the sibling
`b.docx` is NOT processed, contradicting partial-success semantics. -/
theorem upload_sibling_not_processed_counterexample :
    uploadHandler (fun c => [c])
      (fun g => if g.originalname = "a.docx" then Except.error ()
        else Except.ok g.content)
      (fun ts => Except.ok (ts.map (fun _ => ([1] : Vec))))
      [⟨"a.docx", "x"⟩, ⟨"b.docx", "y"⟩] [] [] =
      (UploadResult.serverError, ([] : List ChunkRec)) ∧
    uploadHandler (fun c => [c])
      (fun g => if g.originalname = "a.docx" then Except.error ()
        else Except.ok g.content)
      (fun ts => Except.ok (ts.map (fun _ => ([1] : Vec))))
      [⟨"b.docx", "y"⟩] [] [] =
      (UploadResult.ok [("b.docx", ["y"])], [⟨"b.docx", "y", [1]⟩]) := by
  constructor <;> decide

end ChatDocx
